import Mathlib

/-!
Shallow embedding of the Agent Connection engine of `gmgui`
(`src/acp-launcher.js`, `src/server.js`), and proofs of the specification
claims about it.

The embedding translates, line by line, the `ACPConnection` class:
the line framer of the stdout data handler (`connect`, lines 38-51),
the correlator (`handleMessage`, `sendRequest`), the inbound dispatcher
(`handleIncoming`, `resetPromptTimeout`, `sendResponse`, `sendError`),
the exit handler (lines 28-36), `terminate`, and the `getACP` pool
function of `server.js` (lines 22-36).

Conventions of the embedding:
- JavaScript values carried by the protocol are modelled by `Json`;
  an absent (`undefined`) field is `Option.none`.
- Promise resolution / rejection, `onUpdate` callbacks and stdin writes
  are modelled as an emitted list of `Event`s.
- `setTimeout` timers are modelled by an absolute `deadline` stored with
  each pending request together with the rejection message its callback
  would produce; `clearTimeout` + new `setTimeout` is a field update.
  A driver (`advanceTo`) fires due timers when simulated time advances.
- The node `fs` module and the child process are external: filesystem
  behaviour is an oracle (`FsModel`), process liveness a `Bool`.
-/

namespace Gmgui

mutual

/-- JSON values as produced by `JSON.parse` (numbers restricted to the
integers, which is all the engine ever produces or compares). -/
inductive Json where
  | null
  | bool (b : Bool)
  | num (n : Int)
  | str (s : String)
  | arr (xs : JsonList)
  | obj (fields : JsonFields)

/-- Elements of a JSON array. -/
inductive JsonList where
  | nil
  | cons (hd : Json) (tl : JsonList)

/-- Members of a JSON object, in source order. -/
inductive JsonFields where
  | nil
  | cons (key : String) (val : Json) (tl : JsonFields)

end

/-- Build an object from an ordinary list of members. -/
def jobj : List (String × Json) → Json :=
  Json.obj ∘ List.foldr (fun kv t => JsonFields.cons kv.1 kv.2 t) .nil

/-- Build an array from an ordinary list of elements. -/
def jarr : List Json → Json :=
  Json.arr ∘ List.foldr JsonList.cons .nil

/-- First member with the given key. -/
def lookupField : JsonFields → String → Option Json
  | .nil, _ => none
  | .cons key v tl, k => if key == k then some v else lookupField tl k

/-- JavaScript truthiness of a value. -/
def jsTruthy : Json → Bool
  | .null => false
  | .bool b => b
  | .num n => !(n == 0)
  | .str s => !(s == "")
  | .arr _ => true
  | .obj _ => true

/-- Truthiness of a possibly-absent (`undefined`) value. -/
def jsTruthyO : Option Json → Bool
  | none => false
  | some j => jsTruthy j

/-- Property access `v.k`: a field of an object, `undefined` otherwise. -/
def jGet : Json → String → Option Json
  | .obj fields, k => lookupField fields k
  | _, _ => none

/-- Whitespace characters recognised by `String.prototype.trim` and by
the JSON grammar (the subset the engine can meet on a line). -/
def isWsChar (c : Char) : Bool :=
  c == ' ' || c == '\t' || c == '\r' || c == '\n'

/-- Drop leading whitespace. -/
def skipWs : List Char → List Char
  | [] => []
  | c :: cs => if isWsChar c then skipWs cs else c :: cs

/-- Body of a JSON string after the opening quote (no escape sequences,
which the engine's own frames never contain): the contents and the rest. -/
def strBody : List Char → Option (List Char × List Char)
  | [] => none
  | c :: cs =>
    if c = '"' then some ([], cs)
    else (strBody cs).map fun p => (c :: p.1, p.2)

/-- Longest leading run of decimal digits. -/
def digitsOf : List Char → List Char × List Char
  | [] => ([], [])
  | c :: cs =>
    if c.isDigit then
      let p := digitsOf cs
      (c :: p.1, p.2)
    else ([], c :: cs)

/-- Decimal value of a digit list. -/
def digitsToNat (l : List Char) : Nat :=
  l.foldl (fun a c => a * 10 + (c.toNat - 48)) 0

mutual

/-- Recursive-descent model of `JSON.parse` on the fragment the engine
exchanges (objects, arrays, strings, integers, booleans, null); returns
the value and the unconsumed rest.  Fuel bounds the nesting. -/
def parseVal : Nat → List Char → Option (Json × List Char)
  | 0, _ => none
  | fuel + 1, s =>
    match skipWs s with
    | [] => none
    | '"' :: cs => (strBody cs).map fun p => (Json.str (String.mk p.1), p.2)
    | '\x7b' :: cs =>
      (match skipWs cs with
       | '\x7d' :: r => some (Json.obj .nil, r)
       | _ => (parseMembers fuel cs).map fun p => (Json.obj p.1, p.2))
    | '[' :: cs =>
      (match skipWs cs with
       | ']' :: r => some (Json.arr .nil, r)
       | _ => (parseItems fuel cs).map fun p => (Json.arr p.1, p.2))
    | 't' :: 'r' :: 'u' :: 'e' :: cs => some (Json.bool true, cs)
    | 'f' :: 'a' :: 'l' :: 's' :: 'e' :: cs => some (Json.bool false, cs)
    | 'n' :: 'u' :: 'l' :: 'l' :: cs => some (Json.null, cs)
    | '-' :: cs =>
      (match digitsOf cs with
       | ([], _) => none
       | (d, r) => some (Json.num (-(digitsToNat d : Int)), r))
    | c :: cs =>
      if c.isDigit then
        match digitsOf (c :: cs) with
        | (d, r) => some (Json.num (digitsToNat d), r)
      else none

/-- Members of an object after the opening brace (nonempty case). -/
def parseMembers : Nat → List Char → Option (JsonFields × List Char)
  | 0, _ => none
  | fuel + 1, s =>
    match skipWs s with
    | '"' :: cs =>
      (match strBody cs with
       | none => none
       | some (key, r1) =>
         match skipWs r1 with
         | ':' :: r2 =>
           (match parseVal fuel r2 with
            | none => none
            | some (v, r3) =>
              match skipWs r3 with
              | ',' :: r4 =>
                (parseMembers fuel r4).map fun p =>
                  (JsonFields.cons (String.mk key) v p.1, p.2)
              | '\x7d' :: r4 =>
                some (JsonFields.cons (String.mk key) v .nil, r4)
              | _ => none)
         | _ => none)
    | _ => none

/-- Items of an array after the opening bracket (nonempty case). -/
def parseItems : Nat → List Char → Option (JsonList × List Char)
  | 0, _ => none
  | fuel + 1, s =>
    match parseVal fuel s with
    | none => none
    | some (v, r1) =>
      match skipWs r1 with
      | ',' :: r2 => (parseItems fuel r2).map fun p => (JsonList.cons v p.1, p.2)
      | ']' :: r2 => some (JsonList.cons v .nil, r2)
      | _ => none

end

/-- `JSON.parse` of one framed line: a value followed only by
whitespace, or a parse error (`none`). -/
def parseJson (l : List Char) : Option Json :=
  match parseVal (l.length + 1) l with
  | some (j, rest) => if rest.all isWsChar then some j else none
  | none => none

/-- The fields of a decoded protocol message that `handleMessage` and
`handleIncoming` inspect; `none` models an `undefined` property. -/
structure InMsg where
  method : Option Json
  id : Option Json
  params : Option Json
  result : Option Json
  error : Option Json

/-- Property access on the decoded document.  Accessing a property of
`null` throws a `TypeError`, which the data handler's `try/catch`
swallows together with parse errors, so it is modelled as `none`. -/
def toInMsg : Json → Option InMsg
  | .null => none
  | j => some { method := jGet j "method", id := jGet j "id",
                params := jGet j "params", result := jGet j "result",
                error := jGet j "error" }

/-- Decode one line into a dispatchable message. -/
def parseLine (l : List Char) : Option InMsg :=
  (parseJson l).bind toInMsg

/-- The method name, when `msg.method` is a string (the `===`
comparisons in `handleIncoming` can only match strings). -/
def methodStr (msg : InMsg) : Option String :=
  match msg.method with
  | some (.str s) => some s
  | _ => none

/-- The response id, when `msg.id` is a number and can therefore match
a key of the pending map (`Map` keys compare with `===`). -/
def respId (msg : InMsg) : Option Int :=
  match msg.id with
  | some (.num k) => some k
  | _ => none

mutual

/-- JavaScript `String(v)` coercion, as applied by `new Error(v)` to a
non-string message value. -/
def jsToString : Json → String
  | .str s => s
  | .num n => toString n
  | .bool true => "true"
  | .bool false => "false"
  | .null => "null"
  | .obj _ => "[object Object]"
  | .arr xs => jsToStringList xs

/-- Array elements joined by commas, as `Array.prototype.toString`. -/
def jsToStringList : JsonList → String
  | .nil => ""
  | .cons x .nil => jsToString x
  | .cons x tl => jsToString x ++ "," ++ jsToStringList tl

end

mutual

/-- `JSON.stringify` (no string escaping, which the engine's error
objects do not need). -/
def jstringify : Json → String
  | .null => "null"
  | .bool true => "true"
  | .bool false => "false"
  | .num n => toString n
  | .str s => "\"" ++ s ++ "\""
  | .arr xs => "[" ++ jstringifyList xs ++ "]"
  | .obj kvs => "\x7b" ++ jstringifyFields kvs ++ "\x7d"

/-- Serialised array elements. -/
def jstringifyList : JsonList → String
  | .nil => ""
  | .cons x .nil => jstringify x
  | .cons x tl => jstringify x ++ "," ++ jstringifyList tl

/-- Serialised object members. -/
def jstringifyFields : JsonFields → String
  | .nil => ""
  | .cons k v .nil => "\"" ++ k ++ "\":" ++ jstringify v
  | .cons k v tl => "\"" ++ k ++ "\":" ++ jstringify v ++ "," ++
                    jstringifyFields tl

end

/-- Message of the `Error` built from a JSON-RPC error object:
`msg.error.message || JSON.stringify(msg.error)` (line 66). -/
def errMsgOf (e : Json) : String :=
  match jGet e "message" with
  | some m => if jsTruthy m then jsToString m else jstringify e
  | none => jstringify e

/-- One entry of `pendingRequests`: the method (stored at line 126), and
the state of its `setTimeout` timer - the absolute expiry instant and
the rejection message its callback would produce. -/
structure PendingReq where
  method : String
  deadline : Nat
  timeoutMsg : String

/-- The `pendingRequests` `Map`, as an insertion-ordered association
list with the keys kept distinct, exactly as a JavaScript `Map`. -/
abbrev PendingMap := List (Int × PendingReq)

/-- `Map.prototype.has`. -/
def mapHas (m : PendingMap) (k : Int) : Bool :=
  m.any fun p => p.1 == k

/-- `Map.prototype.get`. -/
def mapGet (m : PendingMap) (k : Int) : Option PendingReq :=
  (m.find? fun p => p.1 == k).map (·.2)

/-- `Map.prototype.set`: replace in place, else append. -/
def mapSet (m : PendingMap) (k : Int) (v : PendingReq) : PendingMap :=
  if mapHas m k then m.map fun p => if p.1 == k then (k, v) else p
  else m ++ [(k, v)]

/-- `Map.prototype.delete`. -/
def mapDelete (m : PendingMap) (k : Int) : PendingMap :=
  m.filter fun p => !(p.1 == k)

/-- The keys of the map, in insertion order. -/
def keysOf (m : PendingMap) : List Int :=
  m.map (·.1)

/-- Frames the engine writes to the child's stdin. -/
inductive OutFrame where
  | request (id : Int) (method : String) (params : Option Json)
  | response (id : Json) (result : Json)
  | errorResponse (id : Json) (code : Int) (message : String)

/-- Observable effects of the engine: promise resolution and rejection
of a pending request, a stdin write, the `onUpdate` callback, and the
immediate rejection of a send attempted while disconnected. -/
inductive Event where
  | resolved (id : Int) (result : Option Json)
  | rejected (id : Int) (msg : String)
  | wrote (frame : OutFrame)
  | updateCb (params : Json)
  | sendFailed (method : String)

/-- State of one `ACPConnection`: `child` is whether `this.child` is
non-null, `buffer` the framer remainder, and `now` the simulated clock
against which timer deadlines are read. -/
structure Conn where
  child : Bool
  buffer : List Char
  nextRequestId : Int
  pending : PendingMap
  hasOnUpdate : Bool
  now : Nat

/-- Oracle for the node `fs` module: result or thrown error message of
`fs.readFileSync(path)` and `fs.writeFileSync(path, content)`. -/
structure FsModel where
  read : Option Json → Except String String
  write : Option Json → Option Json → Except String Unit

/-- `sendResponse` (lines 131-134): write a result frame, a no-op when
`this.child` is null. -/
def sendResponse (st : Conn) (id : Json) (result : Json) : List Event :=
  if st.child then [.wrote (.response id result)] else []

/-- `sendError` (lines 136-139): write an error frame, a no-op when
`this.child` is null. -/
def sendError (st : Conn) (id : Json) (code : Int) (message : String) :
    List Event :=
  if st.child then [.wrote (.errorResponse id code message)] else []

/-- The auto-approval payload of line 80. -/
def allowResult : Json :=
  jobj [("outcome", jobj [("outcome", .str "selected"),
                          ("optionId", .str "allow")])]

/-- `msg.params?.path`. -/
def paramsPath (msg : InMsg) : Option Json :=
  msg.params.bind (jGet · "path")

/-- `content` of `msg.params || \x7b\x7d`. -/
def paramsContent (msg : InMsg) : Option Json :=
  msg.params.bind (jGet · "content")

/-- `resetPromptTimeout` (lines 106-116): for every pending entry whose
method is `session/prompt`, clear its timer and start a fresh one of
300000 ms whose callback rejects with `session/prompt timeout`. -/
def resetPromptTimeout (st : Conn) : Conn :=
  { st with pending := st.pending.map fun p =>
      (p.1, if p.2.method == "session/prompt"
            then { p.2 with deadline := st.now + 300000,
                            timeoutMsg := "session/prompt timeout" }
            else p.2) }

/-- `handleIncoming` (lines 73-104): dispatch an agent-initiated call. -/
def handleIncoming (fs : FsModel) (st : Conn) (msg : InMsg) :
    Conn × List Event :=
  if methodStr msg == some "session/update" && jsTruthyO msg.params then
    (resetPromptTimeout st,
     if st.hasOnUpdate then [Event.updateCb (msg.params.getD .null)] else [])
  else if methodStr msg == some "session/request_permission" &&
          msg.id.isSome then
    (resetPromptTimeout st, sendResponse st (msg.id.getD .null) allowResult)
  else if methodStr msg == some "fs/read_text_file" && msg.id.isSome then
    match fs.read (paramsPath msg) with
    | .ok content =>
      (st, sendResponse st (msg.id.getD .null)
             (jobj [("content", .str content)]))
    | .error m => (st, sendError st (msg.id.getD .null) (-32000) m)
  else if methodStr msg == some "fs/write_text_file" && msg.id.isSome then
    match fs.write (paramsPath msg) (paramsContent msg) with
    | .ok _ => (st, sendResponse st (msg.id.getD .null) .null)
    | .error m => (st, sendError st (msg.id.getD .null) (-32000) m)
  else (st, [])

/-- `handleMessage` (lines 56-71): a message with a truthy `method` goes
to the dispatcher; otherwise a response whose id matches a pending entry
removes the entry, cancels its timer, and rejects (truthy `error`) or
resolves (with `msg.result`) its caller; anything else is ignored. -/
def handleMessage (fs : FsModel) (st : Conn) (msg : InMsg) :
    Conn × List Event :=
  if jsTruthyO msg.method then handleIncoming fs st msg
  else
    match msg.id with
    | some (.num k) =>
      if mapHas st.pending k then
        let st' := { st with pending := mapDelete st.pending k }
        match msg.error with
        | some e =>
          if jsTruthy e then (st', [.rejected k (errMsgOf e)])
          else (st', [.resolved k msg.result])
        | none => (st', [.resolved k msg.result])
      else (st, [])
    | _ => (st, [])

/-- `sendRequest` (lines 118-129): reject at once when disconnected;
otherwise allocate the next sequential id, start the expiry timer whose
callback rejects with the method and configured duration, store the
pending entry and write the framed request. -/
def sendRequest (st : Conn) (method : String) (params : Option Json)
    (timeoutMs : Nat) : Conn × List Event :=
  if !st.child then (st, [.sendFailed method])
  else
    let k : Int := st.nextRequestId
    let req : PendingReq :=
      { method := method, deadline := st.now + timeoutMs,
        timeoutMsg := method ++ " timeout (" ++ toString timeoutMs ++ "ms)" }
    ({ st with nextRequestId := st.nextRequestId + 1,
               pending := mapSet st.pending k req },
     [.wrote (.request k method params)])

/-- The `exit` handler (lines 28-36): null the child, reject every
pending entry with `Error('ACP process exited')` clearing its timer,
and clear the table. -/
def onExit (st : Conn) : Conn × List Event :=
  ({ st with child := false, pending := [] },
   st.pending.map fun p => .rejected p.1 "ACP process exited")

/-- `buffer.split('\n')` followed by `lines.pop()`: the complete lines
and the trailing remainder kept for the next chunk (lines 41-42). -/
def splitNl : List Char → List (List Char) × List Char
  | [] => ([], [])
  | c :: rest =>
    let p := splitNl rest
    if c = '\n' then ([] :: p.1, p.2)
    else
      match p.1 with
      | [] => ([], c :: p.2)
      | l :: ls => ((c :: l) :: ls, p.2)

/-- Handling of one complete line (lines 43-50): a blank line is
skipped; a line that fails to decode is logged and dropped; a decoded
message is dispatched. -/
def processLine (fs : FsModel) (st : Conn) (l : List Char) :
    Conn × List Event :=
  if l.all isWsChar then (st, [])
  else
    match parseLine l with
    | some m => handleMessage fs st m
    | none => (st, [])

/-- Handling of the complete lines of one chunk, in order. -/
def processLines (fs : FsModel) : Conn → List (List Char) →
    Conn × List Event
  | st, [] => (st, [])
  | st, l :: ls =>
    let p1 := processLine fs st l
    let p2 := processLines fs p1.1 ls
    (p2.1, p1.2 ++ p2.2)

/-- The stdout `data` handler (lines 39-51): append the chunk to the
buffer, keep the trailing partial line, process the complete lines. -/
def feedChunk (fs : FsModel) (st : Conn) (data : List Char) :
    Conn × List Event :=
  let p := splitNl (st.buffer ++ data)
  processLines fs { st with buffer := p.2 } p.1

/-- The framing stage alone over a sequence of chunks: the complete
lines yielded, and the final buffer. -/
def frameChunks (buf : List Char) : List (List Char) →
    List (List Char) × List Char
  | [] => ([], buf)
  | c :: cs =>
    let p := splitNl (buf ++ c)
    let q := frameChunks p.2 cs
    (p.1 ++ q.1, q.2)

/-- The documents the decoder yields from a sequence of chunks: each
complete non-blank line parsed independently, parse failures dropped. -/
def decodedDocs (buf : List Char) (chunks : List (List Char)) : List Json :=
  ((frameChunks buf chunks).1.filter fun l => !l.all isWsChar).filterMap
    parseJson

/-- The due timer that fires next: smallest deadline not after `t`,
earliest creation among equals. -/
def firstDue (t : Nat) : PendingMap → Option (Int × PendingReq)
  | [] => none
  | p :: rest =>
    if p.2.deadline ≤ t then
      match firstDue t rest with
      | some q => if q.2.deadline < p.2.deadline then some q else some p
      | none => some p
    else firstDue t rest

/-- Fire every due timer: each callback deletes its entry and rejects
with the message stored for it (lines 122-125, 110-113).  Fuel bounds
the number of firings by the table size. -/
def fireDue (fuel : Nat) (st : Conn) (t : Nat) : Conn × List Event :=
  match fuel with
  | 0 => (st, [])
  | fuel + 1 =>
    match firstDue t st.pending with
    | none => (st, [])
    | some p =>
      let st1 := { st with pending := mapDelete st.pending p.1 }
      let r := fireDue fuel st1 t
      (r.1, .rejected p.1 p.2.timeoutMsg :: r.2)

/-- Advance the simulated clock to `t`, firing every timer that falls
due. -/
def advanceTo (st : Conn) (t : Nat) : Conn × List Event :=
  let t' := max st.now t
  fireDue st.pending.length { st with now := t' } t'

/-- External stimuli of one connection: a host call entering
`sendRequest`, a stdout chunk, the subprocess exit event, and the
passage of time. -/
inductive Act where
  | send (method : String) (params : Option Json) (timeoutMs : Nat)
  | chunk (data : List Char)
  | procExit
  | advance (t : Nat)

/-- One stimulus. -/
def step (fs : FsModel) (st : Conn) (a : Act) : Conn × List Event :=
  match a with
  | .send m p t => sendRequest st m p t
  | .chunk d => feedChunk fs st d
  | .procExit => onExit st
  | .advance t => advanceTo st t

/-- A whole stimulus sequence. -/
def run (fs : FsModel) : Conn → List Act → Conn × List Event
  | st, [] => (st, [])
  | st, a :: acts =>
    let p1 := step fs st a
    let p2 := run fs p1.1 acts
    (p2.1, p1.2 ++ p2.2)

/-- The state right after `connect` succeeded: live child, empty buffer,
ids from 1, empty pending table (constructor, lines 4-12). -/
def initConn : Conn :=
  { child := true, buffer := [], nextRequestId := 1, pending := [],
    hasOnUpdate := false, now := 0 }

/-- Result of `terminate`: the connection, the events of the exit
handler if it ran, the signals sent to the child, and how long the
bounded wait lasted. -/
structure TermResult where
  conn : Conn
  events : List Event
  signals : List String
  waitedMs : Nat

/-- `terminate` (lines 167-173): return at once when the child is
already null; otherwise end stdin, send SIGTERM, and await whichever of
the child's `exit` event and a 5000 ms timer comes first; then null the
child.  `exitDelay` is the oracle for when the SIGTERMed process
actually exits (`none`: not within any bound).  When the exit arrives in
time the `exit` handler of `connect` runs (modelled by `onExit`); when
the 5000 ms timer wins, the child reference is dropped with no further
signal - the code contains no SIGKILL. -/
def terminate (st : Conn) (exitDelay : Option Nat) : TermResult :=
  if !st.child then ⟨st, [], [], 0⟩
  else
    match exitDelay with
    | some d =>
      if d ≤ 5000 then
        let p := onExit st
        ⟨p.1, p.2, ["SIGTERM"], d⟩
      else ⟨{ st with child := false }, [], ["SIGTERM"], 5000⟩
    | none => ⟨{ st with child := false }, [], ["SIGTERM"], 5000⟩

/-- What `getACP` observes of a pooled connection: `isRunning()`. -/
structure PoolConn where
  running : Bool
deriving DecidableEq

/-- The shared pool directory (`acpPool`) restricted to the single
`agentId` both concurrent calls use, plus a spawn counter. -/
structure GetACPState where
  pool : Option PoolConn
  spawns : Nat
deriving DecidableEq

/-- Program counter of one `getACP(agentId, cwd)` invocation.
`entry`: about to run the synchronous prefix (lines 23-28: the pool
lookup, the `isRunning` check and - on a miss - `new ACPConnection()`
plus the spawn inside `connect`).  `awaiting`: suspended at the awaits
of lines 28-32.  `done reused`: returned, recording whether the pooled
connection was reused. -/
inductive GetPC where
  | entry
  | awaiting
  | done (reused : Bool)
deriving DecidableEq

/-- One atomic step of one `getACP` call.  The synchronous prefix up to
the first `await` is one step: JavaScript cannot interleave within it.
`acpPool.set` (line 33) runs in the completion step, after the awaited
bootstrap. -/
def getACPStep (st : GetACPState) (pc : GetPC) : GetACPState × GetPC :=
  match pc with
  | .entry =>
    (match st.pool with
     | some c =>
       if c.running then (st, .done true)
       else ({ st with spawns := st.spawns + 1 }, .awaiting)
     | none => ({ st with spawns := st.spawns + 1 }, .awaiting))
  | .awaiting => ({ st with pool := some ⟨true⟩ }, .done false)
  | .done b => (st, .done b)

/-- Two concurrent `getACP` calls for the same `agentId` over the shared
pool. -/
structure TwoCalls where
  shared : GetACPState
  a : GetPC
  b : GetPC
deriving DecidableEq

/-- Advance call `b` (when `pickB`) or call `a` by one atomic step. -/
def twoStep (s : TwoCalls) (pickB : Bool) : TwoCalls :=
  if pickB then
    let p := getACPStep s.shared s.b
    { s with shared := p.1, b := p.2 }
  else
    let p := getACPStep s.shared s.a
    { s with shared := p.1, a := p.2 }

/-- Run a schedule: at each instant the event loop picks which call's
next atomic block runs. -/
def runSched (s : TwoCalls) : List Bool → TwoCalls
  | [] => s
  | c :: cs => runSched (twoStep s c) cs

/-- Both calls at their entry, the agentId not yet connected. -/
def initTwo : TwoCalls :=
  { shared := { pool := none, spawns := 0 }, a := .entry, b := .entry }

/-- The `(id, message)` pairs of the rejection events in a list. -/
def rejectedEvents (evs : List Event) : List (Int × String) :=
  evs.filterMap fun e =>
    match e with
    | .rejected k m => some (k, m)
    | _ => none

/-- The resolution and rejection events concerning pending id `k`. -/
def eventsFor (k : Int) (evs : List Event) : List Event :=
  evs.filter fun e =>
    match e with
    | .resolved i _ => i == k
    | .rejected i _ => i == k
    | _ => false

/-- The completion a response frame carries for pending id `k`:
rejection with the error's message when `error` is truthy, resolution
with `result` otherwise (lines 65-69). -/
def outcomeEv (k : Int) (m : InMsg) : Event :=
  match m.error with
  | some e => if jsTruthy e then .rejected k (errMsgOf e)
              else .resolved k m.result
  | none => .resolved k m.result

/-- Deliver a list of already-decoded frames to `handleMessage`. -/
def deliverAll (fs : FsModel) : Conn → List InMsg → Conn × List Event
  | st, [] => (st, [])
  | st, m :: ms =>
    let p1 := handleMessage fs st m
    let p2 := deliverAll fs p1.1 ms
    (p2.1, p1.2 ++ p2.2)

/-- The correlator invariant: pending ids are pairwise distinct and all
below the allocation counter. -/
def Inv (st : Conn) : Prop :=
  (keysOf st.pending).Nodup ∧ ∀ k ∈ keysOf st.pending, k < st.nextRequestId

/- Concrete fixtures used by the witnesses and counterexamples. -/

/-- A filesystem oracle on which every operation fails. -/
def fs0 : FsModel :=
  ⟨fun _ => .error "ENOENT: no such file or directory",
   fun _ _ => .error "EACCES: permission denied"⟩

/-- A streaming `session/update` notification line for session `s1`. -/
def updLine : List Char :=
  ("\x7b\"jsonrpc\":\"2.0\",\"method\":\"session/update\"," ++
   "\"params\":\x7b\"sessionId\":\"s1\"\x7d\x7d\n").toList

/-- Notifications arriving every 30 ms: `advance (30*i)` then the
update chunk, for `i = 1..n`. -/
def notifyActs : Nat → List Act
  | 0 => []
  | n + 1 => notifyActs n ++ [.advance (30 * (n + 1)), .chunk updLine]

/-- The progress-timeout scenario: a `session/prompt` with a 50 ms
timeout at time 0, notifications every 30 ms up to 480 ms, then
quiet until 540 ms (60 ms past the last notification). -/
def c1Acts : List Act :=
  .send "session/prompt" none 50 :: notifyActs 16 ++ [.advance 540]

/-- The same scenario continued to 300000 ms past the last
notification. -/
def c1ActsFire : List Act := c1Acts ++ [.advance 300480]

/-- The scenario observed at exactly 500 ms of simulated time. -/
def c1Acts500 : List Act :=
  .send "session/prompt" none 50 :: notifyActs 16 ++ [.advance 500]

/-- The two chunks of the split-document test. -/
def c5chunkA : List Char := "\x7b\"a\":1".toList

/-- Second chunk of the split-document test. -/
def c5chunkB : List Char := "\x7d\n".toList

/-- A malformed line followed by a well-formed response for id 1. -/
def c5badGood : List Char :=
  "\x7bbad\n\x7b\"jsonrpc\":\"2.0\",\"id\":1,\"result\":\x7b\x7d\x7d\n".toList

/-- A pending `session/prompt` entry as `sendRequest` stores it for a
50 ms timeout issued at time 0. -/
def promptReq : PendingReq :=
  { method := "session/prompt", deadline := 50,
    timeoutMsg := "session/prompt timeout (50ms)" }

/-- A connection with one pending prompt, id 1. -/
def stPend : Conn := { initConn with pending := [(1, promptReq)] }

/-- A `session/request_permission` request with id 7. -/
def permMsg : InMsg :=
  { method := some (.str "session/request_permission"),
    id := some (.num 7), params := none, result := none, error := none }

/-- An `fs/read_text_file` request with id 2. -/
def readMsg : InMsg :=
  { method := some (.str "fs/read_text_file"), id := some (.num 2),
    params := some (jobj [("path", .str "/tmp/a")]), result := none,
    error := none }

/-- An `fs/write_text_file` request with id 3. -/
def writeMsg : InMsg :=
  { method := some (.str "fs/write_text_file"), id := some (.num 3),
    params := some (jobj [("path", .str "/tmp/a"), ("content", .str "x")]),
    result := none, error := none }

/-- A `session/update` notification as a decoded message. -/
def updMsg : InMsg :=
  { method := some (.str "session/update"), id := none,
    params := some (jobj [("sessionId", .str "s1")]), result := none,
    error := none }

/-- A successful response frame for id 1. -/
def respMsg1 : InMsg :=
  { method := none, id := some (.num 1), params := none,
    result := some (.str "ok"), error := none }

/-- A message without a truthy `method` whose id matches no pending
entry leaves the connection unchanged and completes nothing
(lines 61-70: the resolution branch is guarded by `has(msg.id)`). -/
theorem handleMessage_ignored (fs : FsModel) (st : Conn) (m : InMsg)
    (hresp : jsTruthyO m.method = false)
    (hnone : ∀ k, respId m = some k → mapHas st.pending k = false) :
    handleMessage fs st m = (st, []) := by
  unfold handleMessage
  simp only [hresp, Bool.false_eq_true, if_false]
  split
  · rename_i k heq
    have hk : mapHas st.pending k = false := by
      apply hnone
      simp [respId, heq]
    simp [hk]
  · rfl

/-- C2.  When the subprocess exits, every pending request is failed
with the process-exited error in table order and the pending table is
cleared; a response frame whose id is absent from the pending table -
in particular any response arriving after the exit - has no effect and
raises no error. -/
theorem c2_thm :
    (∀ st : Conn, onExit st =
       ({ st with child := false, pending := [] },
        st.pending.map fun p => .rejected p.1 "ACP process exited")) ∧
    (∀ (fs : FsModel) (st : Conn) (m : InMsg),
       jsTruthyO m.method = false →
       (∀ k, respId m = some k → mapHas st.pending k = false) →
       handleMessage fs st m = (st, [])) ∧
    (∀ (fs : FsModel) (st : Conn) (m : InMsg),
       jsTruthyO m.method = false →
       handleMessage fs (onExit st).1 m = ((onExit st).1, [])) :=
  ⟨fun _ => rfl,
   fun fs st m h1 h2 => handleMessage_ignored fs st m h1 h2,
   fun fs _st m h1 => handleMessage_ignored fs _ m h1 (fun _ _ => rfl)⟩

/-- C2 witness: a response for id 1 delivered to a connection with an
empty pending table is ignored without any effect. -/
theorem c2_witness : handleMessage fs0 initConn respMsg1 = (initConn, []) :=
  c2_thm.2.1 fs0 initConn respMsg1 rfl (fun _ _ => rfl)

/-- C7.  Every inbound `session/request_permission` request carrying an
id is answered at once, on the same id, with the result selecting the
`allow` option - unconditionally. -/
theorem c7_thm (fs : FsModel) (st : Conn) (m : InMsg) (j : Json)
    (hm : methodStr m = some "session/request_permission")
    (hid : m.id = some j) (hc : st.child = true) :
    handleIncoming fs st m =
      (resetPromptTimeout st, [.wrote (.response j allowResult)]) := by
  have h1 : (methodStr m == some "session/update") = false := by
    rw [hm]; decide
  have h2 : (methodStr m == some "session/request_permission") = true := by
    rw [hm]; decide
  unfold handleIncoming
  rw [h1, hid]
  simp [h2, sendResponse, hc]

/-- C7 witness: the permission request with id 7 on a live connection
is answered with the allow option on id 7. -/
theorem c7_witness :
    handleIncoming fs0 stPend permMsg =
      (resetPromptTimeout stPend,
       [.wrote (.response (Json.num 7) allowResult)]) :=
  c7_thm fs0 stPend permMsg (Json.num 7) rfl rfl rfl

/-- C8.  Every inbound `fs/read_text_file` or `fs/write_text_file`
request carrying an id is answered with exactly one reply on that id:
the content (or the null acknowledgement) when the filesystem oracle
succeeds, and an error reply with numeric code -32000 and the thrown
message on every failure; the connection state is untouched and the
dispatcher never propagates the failure. -/
theorem c8_thm (fs : FsModel) (st : Conn) (m : InMsg) (j : Json)
    (hid : m.id = some j) (hc : st.child = true) :
    (methodStr m = some "fs/read_text_file" →
      handleIncoming fs st m = (st,
        [.wrote (match fs.read (paramsPath m) with
                 | .ok c => .response j (jobj [("content", .str c)])
                 | .error e => .errorResponse j (-32000) e)])) ∧
    (methodStr m = some "fs/write_text_file" →
      handleIncoming fs st m = (st,
        [.wrote (match fs.write (paramsPath m) (paramsContent m) with
                 | .ok _u => .response j .null
                 | .error e => .errorResponse j (-32000) e)])) := by
  constructor
  · intro hm
    have h1 : (methodStr m == some "session/update") = false := by
      rw [hm]; decide
    have h2 : (methodStr m == some "session/request_permission") = false := by
      rw [hm]; decide
    have h3 : (methodStr m == some "fs/read_text_file") = true := by
      rw [hm]; decide
    unfold handleIncoming
    rw [h1, h2, hid]
    cases hr : fs.read (paramsPath m) with
    | ok c => simp [h3, hr, sendResponse, hc]
    | error e => simp [h3, hr, sendError, hc]
  · intro hm
    have h1 : (methodStr m == some "session/update") = false := by
      rw [hm]; decide
    have h2 : (methodStr m == some "session/request_permission") = false := by
      rw [hm]; decide
    have h3 : (methodStr m == some "fs/read_text_file") = false := by
      rw [hm]; decide
    have h4 : (methodStr m == some "fs/write_text_file") = true := by
      rw [hm]; decide
    unfold handleIncoming
    rw [h1, h2, h3, hid]
    cases hw : fs.write (paramsPath m) (paramsContent m) with
    | ok u => simp [h4, hw, sendResponse, hc]
    | error e => simp [h4, hw, sendError, hc]

/-- C8 witness: on the all-failing filesystem oracle, the read request
with id 2 gets the -32000 error reply carrying the thrown message, and
the write request with id 3 likewise. -/
theorem c8_witness :
    handleIncoming fs0 initConn readMsg = (initConn,
      [.wrote (.errorResponse (Json.num 2) (-32000)
                 "ENOENT: no such file or directory")]) ∧
    handleIncoming fs0 initConn writeMsg = (initConn,
      [.wrote (.errorResponse (Json.num 3) (-32000)
                 "EACCES: permission denied")]) :=
  ⟨(c8_thm fs0 initConn readMsg (Json.num 2) rfl rfl).1 rfl,
   (c8_thm fs0 initConn writeMsg (Json.num 3) rfl rfl).2 rfl⟩

/-- C6 counterexample: the claim says `terminate()` force-kills a
subprocess still alive after the bounded wait.  On a live connection
whose child never exits (`exitDelay = none`) the full 5000 ms wait
elapses, yet the only signal ever sent is SIGTERM - there is no
force-kill in `terminate` (lines 167-173). -/
theorem c6_cex :
    (terminate initConn none).waitedMs = 5000 ∧
    ¬ ("SIGKILL" ∈ (terminate initConn none).signals) := by decide

/-- `terminate` does nothing once the child reference is null
(line 168). -/
theorem terminate_noop (st : Conn) (e : Option Nat) (h : st.child = false) :
    terminate st e = ⟨st, [], [], 0⟩ := by
  simp [terminate, h]

/-- C6 as amended: `terminate()` on a live connection ends stdin, sends
the graceful SIGTERM, waits a bounded interval of at most 5000 ms, and
then drops the child reference without force-killing a process that has
not exited; it is idempotent - a second call returns without effect. -/
theorem c6_thm (st : Conn) (e : Option Nat) :
    (st.child = false → terminate st e = ⟨st, [], [], 0⟩) ∧
    (st.child = true →
       (terminate st e).signals = ["SIGTERM"] ∧
       (terminate st e).waitedMs ≤ 5000 ∧
       ¬ ("SIGKILL" ∈ (terminate st e).signals) ∧
       (terminate st e).conn.child = false ∧
       ∀ e', terminate (terminate st e).conn e' =
               ⟨(terminate st e).conn, [], [], 0⟩) := by
  constructor
  · intro h
    exact terminate_noop st e h
  · intro h
    have hterm : (terminate st e).conn.child = false := by
      unfold terminate
      simp only [h]
      cases e with
      | none => simp
      | some d =>
        by_cases hd : d ≤ 5000 <;> simp [hd, onExit]
    refine ⟨?_, ?_, ?_, hterm, ?_⟩
    · unfold terminate
      simp only [h]
      cases e with
      | none => simp
      | some d => by_cases hd : d ≤ 5000 <;> simp [hd]
    · unfold terminate
      simp only [h]
      cases e with
      | none => simp
      | some d =>
        by_cases hd : d ≤ 5000
        · simp [hd]
        · simp [hd]
    · unfold terminate
      simp only [h]
      cases e with
      | none => simp
      | some d => by_cases hd : d ≤ 5000 <;> simp [hd]
    · intro e'
      exact terminate_noop _ e' hterm

/-- C6 witness: terminating the freshly connected state with a child
that never exits sends exactly SIGTERM, waits within the bound, and a
repeat call is a no-op. -/
theorem c6_witness :
    (terminate initConn none).signals = ["SIGTERM"] ∧
    (terminate initConn none).conn.child = false ∧
    terminate (terminate initConn none).conn none =
      ⟨(terminate initConn none).conn, [], [], 0⟩ :=
  ⟨((c6_thm initConn none).2 rfl).1,
   ((c6_thm initConn none).2 rfl).2.2.2.1,
   ((c6_thm initConn none).2 rfl).2.2.2.2 none⟩

/-- C3 counterexample: the claim says two concurrent `getACP` calls for
the same not-yet-connected agentId spawn exactly one subprocess.  In
the interleaving where the second call runs its synchronous pool check
(lines 23-24) before the first call's bootstrap has reached
`acpPool.set` (line 33), both calls miss the pool and both spawn: two
subprocesses for two concurrent calls. -/
theorem c3_cex :
    (runSched initTwo [false, true, false, true]).shared.spawns = 2 ∧
    (runSched initTwo [false, true, false, true]).a = .done false ∧
    (runSched initTwo [false, true, false, true]).b = .done false := by
  decide

/-- C3 as amended: `getACP` does not serialize concurrent acquisitions.
Any call whose synchronous pool check runs while the pool has no entry
spawns its own subprocess, so the overlapped interleaving of two calls
spawns twice; only a call that starts after another's bootstrap has
completed (and left a running connection in the pool) reuses it without
spawning, as in the fully sequential interleaving. -/
theorem c3_thm :
    ((runSched initTwo [false, true, false, true]).shared.spawns = 2) ∧
    ((runSched initTwo [false, false, true, true]).shared.spawns = 1 ∧
     (runSched initTwo [false, false, true, true]).b = .done true) ∧
    (∀ st : GetACPState, st.pool = none →
       getACPStep st .entry = ({ st with spawns := st.spawns + 1 },
                               .awaiting)) ∧
    (∀ (st : GetACPState) (c : PoolConn), st.pool = some c →
       c.running = true → getACPStep st .entry = (st, .done true)) := by
  refine ⟨by decide, by decide, ?_, ?_⟩
  · intro st h
    simp [getACPStep, h]
  · intro st c h hr
    simp [getACPStep, h, hr]

/-- C3 witness: a call entering on an empty pool spawns, and one
entering on a pooled running connection reuses it. -/
theorem c3_witness :
    getACPStep ⟨none, 0⟩ .entry = (⟨none, 1⟩, .awaiting) ∧
    getACPStep ⟨some ⟨true⟩, 1⟩ .entry = (⟨some ⟨true⟩, 1⟩, .done true) :=
  ⟨c3_thm.2.2.1 ⟨none, 0⟩ rfl, c3_thm.2.2.2 ⟨some ⟨true⟩, 1⟩ ⟨true⟩ rfl rfl⟩

/-- Looking a key up in a map whose values were rewritten in place
finds the rewritten value of the same key. -/
theorem mapGet_map_values (g : PendingReq → PendingReq) :
    ∀ (m : PendingMap) (k : Int),
      mapGet (m.map fun p => (p.1, g p.2)) k = (mapGet m k).map g := by
  intro m k
  unfold mapGet
  induction m with
  | nil => rfl
  | cons p rest ih =>
    by_cases hk : (p.1 == k) = true
    · simp [List.find?_cons, hk]
    · simp only [List.map_cons, List.find?_cons, hk] at ih ⊢
      exact ih

/-- `resetPromptTimeout` rewrites every pending `session/prompt` entry
to the fixed 300000 ms deadline and leaves every other entry alone. -/
theorem mapGet_reset (st : Conn) (k : Int) :
    mapGet (resetPromptTimeout st).pending k =
      (mapGet st.pending k).map fun r =>
        if r.method == "session/prompt"
        then { r with deadline := st.now + 300000,
                      timeoutMsg := "session/prompt timeout" }
        else r := by
  unfold resetPromptTimeout
  exact mapGet_map_values
    (fun r => if r.method == "session/prompt"
              then { r with deadline := st.now + 300000,
                            timeoutMsg := "session/prompt timeout" }
              else r) st.pending k

/-- C10.  Whenever any inbound `session/update` notification (whatever
session its params name) or any `session/request_permission` request
carrying an id arrives, the dispatcher restarts the timer of every
pending `session/prompt` request to a fixed 300000 ms from now -
independent of the timeout those prompts were configured with - and
leaves every other pending entry unchanged. -/
theorem c10_thm (fs : FsModel) (st : Conn) (m : InMsg)
    (h : (methodStr m = some "session/update" ∧ jsTruthyO m.params = true) ∨
         (methodStr m = some "session/request_permission" ∧
          m.id.isSome = true)) :
    ∀ k, mapGet (handleIncoming fs st m).1.pending k =
      (mapGet st.pending k).map fun r =>
        if r.method == "session/prompt"
        then { r with deadline := st.now + 300000,
                      timeoutMsg := "session/prompt timeout" }
        else r := by
  intro k
  have hred : (handleIncoming fs st m).1 = resetPromptTimeout st := by
    rcases h with ⟨hm, hp⟩ | ⟨hm, hi⟩
    · have h1 : (methodStr m == some "session/update") = true := by
        rw [hm]; decide
      unfold handleIncoming
      simp [h1, hp]
    · have h1 : (methodStr m == some "session/update") = false := by
        rw [hm]; decide
      have h2 : (methodStr m == some "session/request_permission") = true := by
        rw [hm]; decide
      unfold handleIncoming
      simp [h1, h2, hi]
  rw [hred]
  exact mapGet_reset st k

/-- C10 witness: an update notification naming session `s1` resets the
pending prompt (id 1) of a connection to the fixed deadline. -/
theorem c10_witness :
    mapGet (handleIncoming fs0 stPend updMsg).1.pending 1 =
      (mapGet stPend.pending 1).map fun r =>
        if r.method == "session/prompt"
        then { r with deadline := stPend.now + 300000,
                      timeoutMsg := "session/prompt timeout" }
        else r :=
  c10_thm fs0 stPend updMsg (Or.inl ⟨rfl, rfl⟩) 1

/-- Unfolding of `splitNl` on a cons. -/
theorem splitNl_cons (c : Char) (rest : List Char) :
    splitNl (c :: rest) =
      if c = '\n' then ([] :: (splitNl rest).1, (splitNl rest).2)
      else match (splitNl rest).1 with
           | [] => ([], c :: (splitNl rest).2)
           | l :: ls => ((c :: l) :: ls, (splitNl rest).2) := rfl

/-- Splitting a concatenation: the complete lines of `a` come first,
then the lines obtained once `a`'s trailing remainder is prepended to
`b`; the remainder is that of the second split. -/
theorem splitNl_append (a b : List Char) :
    splitNl (a ++ b) =
      ((splitNl a).1 ++ (splitNl ((splitNl a).2 ++ b)).1,
       (splitNl ((splitNl a).2 ++ b)).2) := by
  induction a with
  | nil => rfl
  | cons c a ih =>
    by_cases hc : c = '\n'
    · subst hc
      rw [List.cons_append, splitNl_cons, splitNl_cons, if_pos rfl,
          if_pos rfl, ih]
      simp
    · rw [List.cons_append, splitNl_cons, splitNl_cons, if_neg hc,
          if_neg hc, ih]
      rcases hA : (splitNl a).1 with _ | ⟨l, ls⟩
      · simp only [hA, List.nil_append]
        rw [List.cons_append, splitNl_cons, if_neg hc]
      · simp [hA, List.cons_append]

/-- Unfolding of `frameChunks` on a cons. -/
theorem frameChunks_cons (buf c : List Char) (cs : List (List Char)) :
    frameChunks buf (c :: cs) =
      ((splitNl (buf ++ c)).1 ++ (frameChunks (splitNl (buf ++ c)).2 cs).1,
       (frameChunks (splitNl (buf ++ c)).2 cs).2) := rfl

/-- The framer is invariant under merging adjacent chunks: a partial
trailing line is carried into the next chunk. -/
theorem frameChunks_merge (buf a b : List Char) (cs : List (List Char)) :
    frameChunks buf (a :: b :: cs) = frameChunks buf ((a ++ b) :: cs) := by
  rw [frameChunks_cons, frameChunks_cons, frameChunks_cons,
      show buf ++ (a ++ b) = (buf ++ a) ++ b from
        (List.append_assoc buf a b).symm,
      splitNl_append (buf ++ a) b]
  simp [List.append_assoc]

/-- Unfolding of `processLines` on a cons. -/
theorem processLines_cons (fs : FsModel) (st : Conn) (l : List Char)
    (ls : List (List Char)) :
    processLines fs st (l :: ls) =
      ((processLines fs (processLine fs st l).1 ls).1,
       (processLine fs st l).2 ++
         (processLines fs (processLine fs st l).1 ls).2) := rfl

/-- A line that fails to decode is dropped: it neither changes the
state nor emits anything (the `catch` of lines 47-49). -/
theorem processLine_drop (fs : FsModel) (st : Conn) (l : List Char)
    (h : parseLine l = none) :
    processLine fs st l = (st, []) := by
  unfold processLine
  by_cases hb : (l.all isWsChar) = true
  · simp [hb]
  · simp [hb, h]

/-- C5.  The framer yields the same decoded documents however the byte
stream is cut into chunks (a trailing partial line is retained and
completed by the next chunk); each complete line is handled
independently, a line that fails to decode being dropped without
affecting the handling of subsequent lines; concretely, the two chunks
of a split JSON document decode to exactly one object, and a malformed
line followed by a well-formed response still resolves the pending
request the response names. -/
theorem c5_thm :
    (∀ (buf a b : List Char) (cs : List (List Char)),
       decodedDocs buf (a :: b :: cs) = decodedDocs buf ((a ++ b) :: cs)) ∧
    (∀ (fs : FsModel) (st : Conn) (l : List Char) (ls : List (List Char)),
       parseLine l = none →
       processLines fs st (l :: ls) = processLines fs st ls) ∧
    (decodedDocs [] [c5chunkA, c5chunkB] = [jobj [("a", Json.num 1)]]) ∧
    (feedChunk fs0 stPend c5badGood =
       ({ stPend with pending := [] },
        [.resolved 1 (some (Json.obj .nil))])) := by
  refine ⟨?_, ?_, rfl, rfl⟩
  · intro buf a b cs
    unfold decodedDocs
    rw [frameChunks_merge]
  · intro fs st l ls h
    have hl := processLine_drop fs st l h
    rw [processLines_cons, hl]
    simp

/-- C5 witness: a malformed line is dropped and the remaining lines are
handled as if it had never arrived. -/
theorem c5_witness :
    processLines fs0 initConn ["\x7bbad".toList] =
      processLines fs0 initConn [] :=
  c5_thm.2.1 fs0 initConn "\x7bbad".toList [] rfl

set_option maxRecDepth 8000 in
/-- C1 counterexample: the claim says that once notifications stop, a
prompt whose progress timeout was configured at 50 ms times out within
60 ms of the last notification.  In the scenario it describes (prompt
sent at time 0 with a 50 ms timeout, `session/update` notifications for
its session every 30 ms until 480 ms), nothing has fired by 540 ms -
60 ms past the last notification - and the prompt is still pending,
because each notification restarted the timer to the fixed 300000 ms of
`resetPromptTimeout`, not to the configured 50 ms. -/
theorem c1_cex :
    rejectedEvents (run fs0 initConn c1Acts).2 = [] ∧
    mapHas (run fs0 initConn c1Acts).1.pending 1 = true := by
  decide

set_option maxRecDepth 8000 in
/-- C1 as amended: each `session/update` notification restarts the
pending prompt's timeout, so with notifications every 30 ms nothing
fires over 500 ms of simulated time; but the restart is to the fixed
300000 ms of `resetPromptTimeout`, not to the configured value, so once
notifications stop the timeout fires 300000 ms after the last
notification (with the `session/prompt timeout` rejection), not within
60 ms of it. -/
theorem c1_thm :
    (rejectedEvents (run fs0 initConn c1Acts500).2 = []) ∧
    (rejectedEvents (run fs0 initConn c1ActsFire).2 =
       [(1, "session/prompt timeout")] ∧
     mapHas (run fs0 initConn c1ActsFire).1.pending 1 = false) ∧
    (∀ (fs : FsModel) (st : Conn) (m : InMsg) (k : Int) (r : PendingReq),
       methodStr m = some "session/update" → jsTruthyO m.params = true →
       mapGet st.pending k = some r → r.method = "session/prompt" →
       mapGet (handleIncoming fs st m).1.pending k =
         some { r with deadline := st.now + 300000,
                       timeoutMsg := "session/prompt timeout" }) := by
  refine ⟨by decide, by decide, ?_⟩
  intro fs st m k r hm hp hg hr
  have h1 : (methodStr m == some "session/update") = true := by
    rw [hm]; decide
  have hred : (handleIncoming fs st m).1 = resetPromptTimeout st := by
    unfold handleIncoming
    simp [h1, hp]
  rw [hred, mapGet_reset, hg]
  simp [hr]

/-- C1 witness: the update notification restarts the pending prompt of
`stPend` (configured at 50 ms) to the fixed 300000 ms deadline. -/
theorem c1_witness :
    mapGet (handleIncoming fs0 stPend updMsg).1.pending 1 =
      some { method := "session/prompt", deadline := 300000,
             timeoutMsg := "session/prompt timeout" } :=
  c1_thm.2.2 fs0 stPend updMsg 1 promptReq rfl rfl rfl rfl

/-- A numeric response id determines the `id` field. -/
theorem respId_some (m : InMsg) (k : Int) (h : respId m = some k) :
    m.id = some (.num k) := by
  unfold respId at h
  split at h
  · rename_i heq
    injection h with h
    subst h
    exact heq
  · cases h

/-- Deleting a key makes `has` false for it. -/
theorem mapHas_mapDelete_self (m : PendingMap) (k : Int) :
    mapHas (mapDelete m k) k = false := by
  unfold mapHas mapDelete
  induction m with
  | nil => rfl
  | cons p rest ih =>
    by_cases hp : (p.1 == k) = true
    · simp [List.filter_cons, hp, List.any_cons, ih]
    · simp [List.filter_cons, hp, List.any_cons, ih]

/-- Deleting one key leaves `has` unchanged for every other key. -/
theorem mapHas_mapDelete_ne (m : PendingMap) (k k' : Int) (hne : k ≠ k') :
    mapHas (mapDelete m k') k = mapHas m k := by
  unfold mapHas mapDelete
  induction m with
  | nil => rfl
  | cons p rest ih =>
    by_cases hp : (p.1 == k') = true
    · have hp1 : p.1 = k' := by simpa using hp
      have hpk : (p.1 == k) = false := by
        subst hp1
        simp [(Ne.symm hne)]
      simp [List.filter_cons, hp, List.any_cons, hpk, ih]
    · simp [List.filter_cons, hp, List.any_cons, ih]

/-- A key absent before a deletion is absent after it. -/
theorem mapHas_mapDelete_false (m : PendingMap) (k k' : Int)
    (h : mapHas m k = false) : mapHas (mapDelete m k') k = false := by
  by_cases hk : k = k'
  · subst hk
    exact mapHas_mapDelete_self m k
  · rw [mapHas_mapDelete_ne m k k' hk]
    exact h

/-- `has` is membership among the keys. -/
theorem mapHas_eq_mem (m : PendingMap) (k : Int) :
    mapHas m k = true ↔ k ∈ keysOf m := by
  unfold mapHas keysOf
  rw [List.any_eq_true]
  constructor
  · rintro ⟨p, hp, hpk⟩
    exact List.mem_map.mpr ⟨p, hp, by simpa using hpk⟩
  · intro h
    rcases List.mem_map.mp h with ⟨p, hp, hpk⟩
    exact ⟨p, hp, by simp [hpk]⟩

/-- The completion events concerning distinct ids separate over
concatenation. -/
theorem eventsFor_append (k : Int) (a b : List Event) :
    eventsFor k (a ++ b) = eventsFor k a ++ eventsFor k b := by
  unfold eventsFor
  rw [List.filter_append]

/-- A completion for id `k` is an event for id `k`. -/
theorem eventsFor_single_self (k : Int) (m : InMsg) :
    eventsFor k [outcomeEv k m] = [outcomeEv k m] := by
  unfold eventsFor outcomeEv
  cases m.error with
  | none => simp
  | some e => by_cases ht : jsTruthy e <;> simp [ht]

/-- A completion for a different id is not an event for id `k`. -/
theorem eventsFor_single_ne (k k' : Int) (hne : k' ≠ k) (m : InMsg) :
    eventsFor k [outcomeEv k' m] = [] := by
  have hb : (k' == k) = false := by simp [hne]
  unfold eventsFor outcomeEv
  cases m.error with
  | none => simp [hb]
  | some e => by_cases ht : jsTruthy e <;> simp [ht, hb]

/-- A response whose id matches a pending entry removes exactly that
entry and emits exactly the completion the frame carries
(lines 61-69). -/
theorem handleMessage_resolve (fs : FsModel) (st : Conn) (m : InMsg)
    (k : Int) (hresp : jsTruthyO m.method = false)
    (hid : respId m = some k) (hhas : mapHas st.pending k = true) :
    handleMessage fs st m =
      ({ st with pending := mapDelete st.pending k }, [outcomeEv k m]) := by
  have hmid : m.id = some (.num k) := respId_some m k hid
  unfold handleMessage
  simp only [hresp, Bool.false_eq_true, if_false, hmid]
  simp only [hhas, if_true]
  unfold outcomeEv
  cases her : m.error with
  | none => rfl
  | some e => by_cases ht : jsTruthy e <;> simp [ht]

/-- A response frame for a different id emits no event for id `k` and
does not change whether `k` is pending. -/
theorem handleMessage_other (fs : FsModel) (st : Conn) (m : InMsg)
    (k : Int) (hresp : jsTruthyO m.method = false)
    (hne : respId m ≠ some k) :
    eventsFor k (handleMessage fs st m).2 = [] ∧
    mapHas (handleMessage fs st m).1.pending k = mapHas st.pending k := by
  cases hr : respId m with
  | none =>
    have h0 := handleMessage_ignored fs st m hresp
      (fun k0 hk0 => by rw [hr] at hk0; cases hk0)
    rw [h0]
    exact ⟨rfl, rfl⟩
  | some k' =>
    have hkk : k' ≠ k := fun h => hne (h ▸ hr)
    by_cases hh : mapHas st.pending k' = true
    · rw [handleMessage_resolve fs st m k' hresp hr hh]
      exact ⟨eventsFor_single_ne k k' hkk m,
             mapHas_mapDelete_ne st.pending k k' (Ne.symm hkk)⟩
    · simp only [Bool.not_eq_true] at hh
      have h0 := handleMessage_ignored fs st m hresp
        (fun k0 hk0 => by
           rw [hr] at hk0
           injection hk0 with h
           subst h
           exact hh)
      rw [h0]
      exact ⟨rfl, rfl⟩

/-- Unfolding of `deliverAll` on a cons. -/
theorem deliverAll_cons (fs : FsModel) (st : Conn) (m : InMsg)
    (ms : List InMsg) :
    deliverAll fs st (m :: ms) =
      ((deliverAll fs (handleMessage fs st m).1 ms).1,
       (handleMessage fs st m).2 ++
         (deliverAll fs (handleMessage fs st m).1 ms).2) := rfl

/-- Delivering frames none of which names id `k` emits nothing for `k`
and does not change whether `k` is pending. -/
theorem deliverAll_other (fs : FsModel) (k : Int) :
    ∀ (ms : List InMsg) (st : Conn),
      (∀ m ∈ ms, jsTruthyO m.method = false) →
      (∀ m ∈ ms, respId m ≠ some k) →
      eventsFor k (deliverAll fs st ms).2 = [] ∧
      mapHas (deliverAll fs st ms).1.pending k = mapHas st.pending k := by
  intro ms
  induction ms with
  | nil => exact fun st _ _ => ⟨rfl, rfl⟩
  | cons m ms ih =>
    intro st h1 h2
    have hm := handleMessage_other fs st m k
      (h1 m (List.mem_cons_self m ms)) (h2 m (List.mem_cons_self m ms))
    have ihm := ih (handleMessage fs st m).1
      (fun x hx => h1 x (List.mem_cons_of_mem m hx))
      (fun x hx => h2 x (List.mem_cons_of_mem m hx))
    rw [deliverAll_cons]
    refine ⟨?_, ihm.2.trans hm.2⟩
    rw [eventsFor_append, hm.1, ihm.1]
    rfl

/-- The timer that fires is one of the pending entries. -/
theorem firstDue_mem (t : Nat) :
    ∀ (m : PendingMap) (p : Int × PendingReq),
      firstDue t m = some p → p ∈ m := by
  intro m
  induction m with
  | nil => intro p h; cases h
  | cons q rest ih =>
    intro p h
    unfold firstDue at h
    by_cases hq : q.2.deadline ≤ t
    · simp only [hq, if_true] at h
      cases hf : firstDue t rest with
      | none =>
        rw [hf] at h
        injection h with h
        subst h
        exact List.mem_cons_self _ _
      | some r =>
        rw [hf] at h
        by_cases hd : r.2.deadline < q.2.deadline
        · simp only [hd, if_true] at h
          injection h with h
          subst h
          exact List.mem_cons_of_mem _ (ih _ hf)
        · simp only [hd, if_false] at h
          injection h with h
          subst h
          exact List.mem_cons_self _ _
    · simp only [hq, if_false] at h
      exact List.mem_cons_of_mem _ (ih p h)

/-- Firing due timers emits no event for an id that is not pending:
a resolved request's timer is dead. -/
theorem fireDue_not (k : Int) :
    ∀ (fuel : Nat) (st : Conn) (t : Nat), mapHas st.pending k = false →
      eventsFor k (fireDue fuel st t).2 = [] := by
  intro fuel
  induction fuel with
  | zero => exact fun st t _ => rfl
  | succ fuel ih =>
    intro st t h
    unfold fireDue
    cases hf : firstDue t st.pending with
    | none => rfl
    | some p =>
      have hp : p ∈ st.pending := firstDue_mem t st.pending p hf
      have hpk : (p.1 == k) = false := by
        by_contra hc
        have hc' : (p.1 == k) = true := by simpa using hc
        have hmem : mapHas st.pending k = true := by
          unfold mapHas
          exact List.any_eq_true.mpr ⟨p, hp, hc'⟩
        rw [hmem] at h
        cases h
      have hrec := ih { st with pending := mapDelete st.pending p.1 } t
        (mapHas_mapDelete_false st.pending k p.1 h)
      show eventsFor k (.rejected p.1 p.2.timeoutMsg ::
        (fireDue fuel { st with pending := mapDelete st.pending p.1 } t).2)
        = []
      unfold eventsFor
      rw [List.filter_cons_of_neg (by simp [hpk])]
      exact hrec

/-- Advancing the clock emits no event for an id that is not pending. -/
theorem advanceTo_not (st : Conn) (k : Int) (t : Nat)
    (h : mapHas st.pending k = false) :
    eventsFor k (advanceTo st t).2 = [] := by
  unfold advanceTo
  exact fireDue_not k st.pending.length _ _ h

/-- C4.  Delivering the response frames of concurrently pending
requests in any order completes each request with exactly the result or
error carried by the frame whose id matches it: among all emitted
events, the events concerning that id are exactly the one completion of
its own frame, its pending entry is removed, and its timer is dead -
advancing the clock arbitrarily far fires nothing for it. -/
theorem c4_thm (fs : FsModel) :
    ∀ (ms : List InMsg) (st : Conn),
      (∀ m ∈ ms, jsTruthyO m.method = false) →
      (∀ m ∈ ms, ∀ k, respId m = some k → mapHas st.pending k = true) →
      (ms.filterMap respId).Nodup →
      ∀ m ∈ ms, ∀ k, respId m = some k →
        eventsFor k (deliverAll fs st ms).2 = [outcomeEv k m] ∧
        mapHas (deliverAll fs st ms).1.pending k = false ∧
        ∀ t, eventsFor k (advanceTo (deliverAll fs st ms).1 t).2 = [] := by
  intro ms
  induction ms with
  | nil => intro st _ _ _ m hm; cases hm
  | cons m0 ms ih =>
    intro st h1 h2 h3 m hm k hk
    rw [deliverAll_cons]
    rcases List.mem_cons.mp hm with rfl | hmem
    · have hhas : mapHas st.pending k = true :=
        h2 m (List.mem_cons_self _ _) k hk
      have hres := handleMessage_resolve fs st m k
        (h1 m (List.mem_cons_self _ _)) hk hhas
      have hknotin : ∀ x ∈ ms, respId x ≠ some k := by
        intro x hx hc
        have hkin : k ∈ ms.filterMap respId :=
          List.mem_filterMap.mpr ⟨x, hx, hc⟩
        simp only [List.filterMap_cons, hk] at h3
        exact (List.nodup_cons.mp h3).1 hkin
      have hoth := deliverAll_other fs k ms (handleMessage fs st m).1
        (fun x hx => h1 x (List.mem_cons_of_mem _ hx)) hknotin
      have hfinal :
          mapHas (deliverAll fs (handleMessage fs st m).1 ms).1.pending k
            = false := by
        rw [hoth.2, hres]
        exact mapHas_mapDelete_self st.pending k
      refine ⟨?_, hfinal, fun t => advanceTo_not _ k t hfinal⟩
      rw [eventsFor_append, hoth.1, hres, eventsFor_single_self]
      simp
    · have hne0 : respId m0 ≠ some k := by
        intro hc
        have hkin : k ∈ ms.filterMap respId :=
          List.mem_filterMap.mpr ⟨m, hmem, hk⟩
        simp only [List.filterMap_cons, hc] at h3
        exact (List.nodup_cons.mp h3).1 hkin
      have hm0 := handleMessage_other fs st m0 k
        (h1 m0 (List.mem_cons_self _ _)) hne0
      have ih' := ih (handleMessage fs st m0).1
        (fun x hx => h1 x (List.mem_cons_of_mem _ hx))
        (fun x hx k' hk' => by
           have hne' : respId m0 ≠ some k' := by
             intro hc
             have hk'in : k' ∈ ms.filterMap respId :=
               List.mem_filterMap.mpr ⟨x, hx, hk'⟩
             simp only [List.filterMap_cons, hc] at h3
             exact (List.nodup_cons.mp h3).1 hk'in
           have hpres := (handleMessage_other fs st m0 k'
             (h1 m0 (List.mem_cons_self _ _)) hne').2
           rw [hpres]
           exact h2 x (List.mem_cons_of_mem _ hx) k' hk')
        (by
           cases hr0 : respId m0 with
           | none =>
             simp only [List.filterMap_cons, hr0] at h3
             exact h3
           | some k0 =>
             simp only [List.filterMap_cons, hr0] at h3
             exact (List.nodup_cons.mp h3).2)
      have hres' := ih' m hmem k hk
      refine ⟨?_, hres'.2.1, hres'.2.2⟩
      rw [eventsFor_append, hm0.1, hres'.1]
      rfl

/-- C4 witness: the response for id 1 delivered to a connection with
pending id 1 completes exactly that request with its own payload and
removes the entry. -/
theorem c4_witness :
    eventsFor 1 (deliverAll fs0 stPend [respMsg1]).2 =
      [outcomeEv 1 respMsg1] ∧
    mapHas (deliverAll fs0 stPend [respMsg1]).1.pending 1 = false :=
  ⟨(c4_thm fs0 [respMsg1] stPend
      (fun m hm => by rcases List.mem_singleton.mp hm with rfl; rfl)
      (fun m hm k hk => by
         rcases List.mem_singleton.mp hm with rfl
         have h1 : respId respMsg1 = some 1 := rfl
         rw [h1] at hk
         injection hk with h
         subst h
         rfl)
      (by decide)
      respMsg1 (List.mem_singleton.mpr rfl) 1 rfl).1,
   (c4_thm fs0 [respMsg1] stPend
      (fun m hm => by rcases List.mem_singleton.mp hm with rfl; rfl)
      (fun m hm k hk => by
         rcases List.mem_singleton.mp hm with rfl
         have h1 : respId respMsg1 = some 1 := rfl
         rw [h1] at hk
         injection hk with h
         subst h
         rfl)
      (by decide)
      respMsg1 (List.mem_singleton.mpr rfl) 1 rfl).2.1⟩

/-- Deleting an entry keeps the key list a sublist. -/
theorem keysOf_mapDelete_sublist (m : PendingMap) (k : Int) :
    List.Sublist (keysOf (mapDelete m k)) (keysOf m) :=
  List.Sublist.map _ (List.filter_sublist m)

/-- Rewriting values in place leaves the key list unchanged. -/
theorem keysOf_map_values (g : PendingReq → PendingReq) (m : PendingMap) :
    keysOf (m.map fun p => (p.1, g p.2)) = keysOf m := by
  induction m with
  | nil => rfl
  | cons p rest ih =>
    simp only [keysOf, List.map_cons] at ih ⊢
    rw [ih]

/-- Restarting prompt timers leaves the key list unchanged. -/
theorem keysOf_reset (st : Conn) :
    keysOf (resetPromptTimeout st).pending = keysOf st.pending :=
  keysOf_map_values
    (fun r => if r.method == "session/prompt"
              then { r with deadline := st.now + 300000,
                            timeoutMsg := "session/prompt timeout" }
              else r) st.pending

/-- The inbound dispatcher never adds, removes or renames pending
entries, and never touches the id counter or the child handle. -/
theorem handleIncoming_pending (fs : FsModel) (st : Conn) (m : InMsg) :
    keysOf (handleIncoming fs st m).1.pending = keysOf st.pending ∧
    (handleIncoming fs st m).1.nextRequestId = st.nextRequestId ∧
    (handleIncoming fs st m).1.child = st.child := by
  unfold handleIncoming
  split
  · exact ⟨keysOf_reset st, rfl, rfl⟩
  · split
    · exact ⟨keysOf_reset st, rfl, rfl⟩
    · split
      · split <;> exact ⟨rfl, rfl, rfl⟩
      · split
        · split <;> exact ⟨rfl, rfl, rfl⟩
        · exact ⟨rfl, rfl, rfl⟩

/-- Message handling only ever removes pending entries and never
touches the id counter or the child handle. -/
theorem handleMessage_pending (fs : FsModel) (st : Conn) (m : InMsg) :
    List.Sublist (keysOf (handleMessage fs st m).1.pending) (keysOf st.pending) ∧
    (handleMessage fs st m).1.nextRequestId = st.nextRequestId ∧
    (handleMessage fs st m).1.child = st.child := by
  unfold handleMessage
  split
  · have h := handleIncoming_pending fs st m
    refine ⟨?_, h.2.1, h.2.2⟩
    rw [h.1]
  · split
    · split
      · split
        · split
          · exact ⟨keysOf_mapDelete_sublist _ _, rfl, rfl⟩
          · exact ⟨keysOf_mapDelete_sublist _ _, rfl, rfl⟩
        · exact ⟨keysOf_mapDelete_sublist _ _, rfl, rfl⟩
      · exact ⟨List.Sublist.refl _, rfl, rfl⟩
    · exact ⟨List.Sublist.refl _, rfl, rfl⟩

/-- One framed line only ever removes pending entries. -/
theorem processLine_pending (fs : FsModel) (st : Conn) (l : List Char) :
    List.Sublist (keysOf (processLine fs st l).1.pending) (keysOf st.pending) ∧
    (processLine fs st l).1.nextRequestId = st.nextRequestId ∧
    (processLine fs st l).1.child = st.child := by
  unfold processLine
  split
  · exact ⟨List.Sublist.refl _, rfl, rfl⟩
  · split
    · exact handleMessage_pending fs st _
    · exact ⟨List.Sublist.refl _, rfl, rfl⟩

/-- A sequence of framed lines only ever removes pending entries. -/
theorem processLines_pending (fs : FsModel) :
    ∀ (ls : List (List Char)) (st : Conn),
      List.Sublist (keysOf (processLines fs st ls).1.pending) (keysOf st.pending) ∧
      (processLines fs st ls).1.nextRequestId = st.nextRequestId ∧
      (processLines fs st ls).1.child = st.child := by
  intro ls
  induction ls with
  | nil => exact fun st => ⟨List.Sublist.refl _, rfl, rfl⟩
  | cons l ls ih =>
    intro st
    rw [processLines_cons]
    have h1 := processLine_pending fs st l
    have h2 := ih (processLine fs st l).1
    exact ⟨h2.1.trans h1.1, h2.2.1.trans h1.2.1, h2.2.2.trans h1.2.2⟩

/-- A stdout chunk only ever removes pending entries. -/
theorem feedChunk_pending (fs : FsModel) (st : Conn) (d : List Char) :
    List.Sublist (keysOf (feedChunk fs st d).1.pending) (keysOf st.pending) ∧
    (feedChunk fs st d).1.nextRequestId = st.nextRequestId ∧
    (feedChunk fs st d).1.child = st.child := by
  unfold feedChunk
  exact processLines_pending fs _ _

/-- Firing due timers only ever removes pending entries. -/
theorem fireDue_pending :
    ∀ (fuel : Nat) (st : Conn) (t : Nat),
      List.Sublist (keysOf (fireDue fuel st t).1.pending) (keysOf st.pending) ∧
      (fireDue fuel st t).1.nextRequestId = st.nextRequestId ∧
      (fireDue fuel st t).1.child = st.child := by
  intro fuel
  induction fuel with
  | zero => exact fun st t => ⟨List.Sublist.refl _, rfl, rfl⟩
  | succ fuel ih =>
    intro st t
    unfold fireDue
    cases hf : firstDue t st.pending with
    | none => exact ⟨List.Sublist.refl _, rfl, rfl⟩
    | some p =>
      have h := ih { st with pending := mapDelete st.pending p.1 } t
      exact ⟨h.1.trans (keysOf_mapDelete_sublist _ _), h.2.1, h.2.2⟩

/-- Advancing the clock only ever removes pending entries. -/
theorem advanceTo_pending (st : Conn) (t : Nat) :
    List.Sublist (keysOf (advanceTo st t).1.pending) (keysOf st.pending) ∧
    (advanceTo st t).1.nextRequestId = st.nextRequestId ∧
    (advanceTo st t).1.child = st.child := by
  unfold advanceTo
  exact fireDue_pending st.pending.length _ _

/-- The correlator invariant transports along entry removal. -/
theorem inv_mono {st st' : Conn}
    (hk : List.Sublist (keysOf st'.pending) (keysOf st.pending))
    (hn : st'.nextRequestId = st.nextRequestId) (h : Inv st) : Inv st' := by
  constructor
  · exact h.1.sublist hk
  · intro k hkm
    rw [hn]
    exact h.2 k (hk.subset hkm)

/-- Under the invariant, the next id to be allocated is never already
pending: no id is reused while a request with that id is pending. -/
theorem sendRequest_fresh (st : Conn) (h : Inv st) :
    mapHas st.pending st.nextRequestId = false := by
  by_contra hc
  have hc' : mapHas st.pending st.nextRequestId = true := by
    simpa using hc
  have hmem := (mapHas_eq_mem _ _).mp hc'
  have := h.2 _ hmem
  omega

/-- Setting a fresh key appends it. -/
theorem mapSet_append (m : PendingMap) (k : Int) (v : PendingReq)
    (h : mapHas m k = false) : mapSet m k v = m ++ [(k, v)] := by
  unfold mapSet
  rw [h]
  rfl

/-- `sendRequest` preserves the correlator invariant: the freshly
allocated id is distinct from every pending id, and the bound moves
with the counter. -/
theorem sendRequest_inv (st : Conn) (m : String) (p : Option Json)
    (t : Nat) (h : Inv st) : Inv (sendRequest st m p t).1 := by
  unfold sendRequest
  split
  · exact h
  · have hf := sendRequest_fresh st h
    have hkeys : keysOf (mapSet st.pending st.nextRequestId
        { method := m, deadline := st.now + t,
          timeoutMsg := m ++ " timeout (" ++ toString t ++ "ms)" }) =
        keysOf st.pending ++ [st.nextRequestId] := by
      rw [mapSet_append _ _ _ hf]
      simp [keysOf]
    constructor
    · show (keysOf (mapSet st.pending st.nextRequestId _)).Nodup
      rw [hkeys, List.nodup_append]
      refine ⟨h.1, List.nodup_singleton _, ?_⟩
      intro a ha hb
      rw [List.mem_singleton] at hb
      subst hb
      have := h.2 _ ha
      omega
    · show ∀ k ∈ keysOf (mapSet st.pending st.nextRequestId _),
        k < st.nextRequestId + 1
      rw [hkeys]
      intro k hk
      rcases List.mem_append.mp hk with hk | hk
      · have := h.2 k hk
        omega
      · rw [List.mem_singleton] at hk
        omega

/-- Unfolding of `run` on a cons. -/
theorem run_cons (fs : FsModel) (st : Conn) (a : Act) (acts : List Act) :
    run fs st (a :: acts) =
      ((run fs (step fs st a).1 acts).1,
       (step fs st a).2 ++ (run fs (step fs st a).1 acts).2) := rfl

/-- Every stimulus preserves the correlator invariant. -/
theorem step_inv (fs : FsModel) (st : Conn) (a : Act) (h : Inv st) :
    Inv (step fs st a).1 := by
  cases a with
  | send m p t => exact sendRequest_inv st m p t h
  | chunk d =>
    have hp := feedChunk_pending fs st d
    exact inv_mono hp.1 hp.2.1 h
  | procExit =>
    exact ⟨List.nodup_nil, fun k hk => absurd hk (List.not_mem_nil k)⟩
  | advance t =>
    have hp := advanceTo_pending st t
    exact inv_mono hp.1 hp.2.1 h

/-- Any stimulus sequence preserves the correlator invariant. -/
theorem run_inv (fs : FsModel) :
    ∀ (acts : List Act) (st : Conn), Inv st → Inv (run fs st acts).1 := by
  intro acts
  induction acts with
  | nil => exact fun st h => h
  | cons a acts ih =>
    intro st h
    rw [run_cons]
    exact ih _ (step_inv fs st a h)

/-- C9.  Request ids form a strictly increasing per-connection
sequence: each send on a live connection writes the current counter
value as its id and bumps the counter by one, so in every state
reachable from a fresh connection the pending ids are pairwise distinct
and all below the counter - in particular the id a send would allocate
is never one that is still pending. -/
theorem c9_thm :
    (∀ (fs : FsModel) (acts : List Act), Inv (run fs initConn acts).1) ∧
    (∀ (st : Conn) (m : String) (p : Option Json) (t : Nat),
       st.child = true →
       (sendRequest st m p t).2 = [.wrote (.request st.nextRequestId m p)] ∧
       (sendRequest st m p t).1.nextRequestId = st.nextRequestId + 1) ∧
    (∀ (st : Conn) (m : String) (p : Option Json) (t : Nat),
       st.child = true → Inv st →
       mapHas st.pending st.nextRequestId = false ∧
       keysOf (sendRequest st m p t).1.pending =
         keysOf st.pending ++ [st.nextRequestId]) := by
  refine ⟨?_, ?_, ?_⟩
  · intro fs acts
    exact run_inv fs acts initConn
      ⟨List.nodup_nil, fun k hk => absurd hk (List.not_mem_nil k)⟩
  · intro st m p t hc
    unfold sendRequest
    simp [hc]
  · intro st m p t hc hInv
    have hf := sendRequest_fresh st hInv
    refine ⟨hf, ?_⟩
    unfold sendRequest
    simp only [hc, Bool.not_true, Bool.false_eq_true, if_false]
    rw [mapSet_append _ _ _ hf]
    simp [keysOf]

/-- C9 witness: on the fresh connection id 1 is not yet pending, the
first send writes id 1, and afterwards exactly id 1 is pending. -/
theorem c9_witness :
    mapHas initConn.pending initConn.nextRequestId = false ∧
    (sendRequest initConn "session/new" none 120000).2 =
      [.wrote (.request 1 "session/new" none)] ∧
    keysOf (sendRequest initConn "session/new" none 120000).1.pending =
      [1] :=
  ⟨(c9_thm.2.2 initConn "session/new" none 120000 rfl
      ⟨List.nodup_nil, fun k hk => absurd hk (List.not_mem_nil k)⟩).1,
   (c9_thm.2.1 initConn "session/new" none 120000 rfl).1,
   (c9_thm.2.2 initConn "session/new" none 120000 rfl
      ⟨List.nodup_nil, fun k hk => absurd hk (List.not_mem_nil k)⟩).2⟩

end Gmgui
